import Mathlib

/-!
Verification development for the zona-prop-scraper repository.

The relevant parts of `src/scraper.py` and
`zonaprop_scraper/zonaprop_excel_export.py` are shallowly embedded below:
strings are `List Char`, Python `float` is idealised as `ℚ` (all numbers the
code parses are short decimal literals, and no claim depends on binary
floating-point rounding), Python `int` is `Nat`, `None` is `Option.none`,
and code that can raise returns `Except`.

Case folding is modelled on ASCII letters plus Ñ/ñ, which covers every
cased character appearing in this code's regular expressions and label
phrases.
-/

namespace ZonaProp

/-- Python ASCII whitespace, the characters matched by `str.strip()` and
`\s` that can occur in the scraped text. -/
def isPySpace (c : Char) : Bool :=
  c = ' ' || c = '\t' || c = '\n' || c = '\r' || c = '\x0b' || c = '\x0c'

/-- Lower casing as used by `str.lower()` and `re.IGNORECASE`: ASCII
letters plus Ñ, the only other cased letter occurring in this code's
patterns and label phrases. -/
def lowerAscii (c : Char) : Char := if c = 'Ñ' then 'ñ' else c.toLower

/-- Python `str.strip()`: drop leading and trailing whitespace. -/
def pyStrip (l : List Char) : List Char :=
  ((l.dropWhile isPySpace).reverse.dropWhile isPySpace).reverse

/-- Python rstrip with argument ".": drop all trailing dots. -/
def rstripDots (l : List Char) : List Char :=
  (l.reverse.dropWhile (fun c => c = '.')).reverse

/-- Python `str.lower()` (ASCII fold). -/
def pyLower (l : List Char) : List Char := l.map lowerAscii

/-- The character for a decimal digit value. -/
def digitChar (d : Nat) : Char := Char.ofNat (48 + d)

/-- Decimal rendering of a natural number, as Python `str(n)` /
f-string interpolation of an `int` produces it. -/
def natDigits (n : Nat) : List Char :=
  if n = 0 then ['0'] else ((Nat.digits 10 n).map digitChar).reverse

/-- Decimal rendering of an integer (Python `str` of an `int`). -/
def intDigits (i : Int) : List Char :=
  if i < 0 then '-' :: natDigits i.natAbs else natDigits i.natAbs

/-- Value of a digit character. -/
def digitVal (c : Char) : Nat := c.toNat - 48

/-- Numeric value of a big-endian digit string, as Python `int(s)`
computes it for a string of ASCII digits. -/
def digitsToNat (l : List Char) : Nat :=
  l.foldl (fun acc c => 10 * acc + digitVal c) 0

/-! ## The feature-token scanner of `Scraper.parse_features`

The source compiles one pattern
`(\d+(?:[\.,]\d+)*)\s*(UNIT)(?:\s*(QUAL))?` with the IGNORECASE flag, where
UNIT is the alternation over m², m2, amb, dorm, baños, baño, coch (the
abbreviations with an optional trailing dot) and QUAL the alternation over
tot, totales, cub, cubiertos, terr, terreno (again with optional dots), and
runs `findall` over the input.  The scanner below reproduces the engine's
behaviour on this pattern: matches are found left to right, the numeric
group and the whitespace are matched greedily (no backtracking into them can
ever make the unit match, because every unit alternative begins with a
letter while the characters given back are digits, separators or
whitespace), alternatives are tried in the pattern's order, and the optional
qualifier group matches greedily or is skipped.  `findall` returns the
matched substrings of the three groups, an unmatched group yielding the
empty string. -/

/-- Split a leading run of ASCII digits (greedy `\d+`, possibly empty). -/
def splitDigits (s : List Char) : List Char × List Char :=
  (s.takeWhile Char.isDigit, s.dropWhile Char.isDigit)

/-- Greedy `(?:[\.,]\d+)*` continuation of the numeric group: consume
separator-plus-digit-run blocks as long as they are present.  Fuelled by
the input length (every iteration consumes at least two characters, so the
fuel is never exhausted before the input). -/
def numTailGo : Nat → List Char → List Char × List Char
  | 0, s => ([], s)
  | fuel + 1, c :: d :: rest =>
    if (c = '.' || c = ',') && d.isDigit then
      let run := (d :: rest).takeWhile Char.isDigit
      let r := (d :: rest).dropWhile Char.isDigit
      let (tl, rfin) := numTailGo fuel r
      (c :: (run ++ tl), rfin)
    else ([], c :: d :: rest)
  | _ + 1, s => ([], s)

/-- Greedy `(?:[\.,]\d+)*`. -/
def numTail (s : List Char) : List Char × List Char := numTailGo s.length s

/-- Greedy `\s*`. -/
def splitSpaces (s : List Char) : List Char × List Char :=
  (s.takeWhile isPySpace, s.dropWhile isPySpace)

/-- Case-insensitive literal match: `matchCI pat s` consumes the first
`pat.length` characters of `s` when their ASCII lower case equals `pat`,
returning the consumed (original-case) characters and the rest. -/
def matchCI : List Char → List Char → Option (List Char × List Char)
  | [], s => some ([], s)
  | _ :: _, [] => none
  | p :: ps, c :: cs =>
    if lowerAscii c = p then
      (matchCI ps cs).map (fun pr => (c :: pr.1, pr.2))
    else none

/-- Try a list of case-insensitive literal alternatives in order (the
regex alternation; a greedy optional trailing dot is expressed by listing
the dotted variant before the bare one). -/
def matchAlts : List (List Char) → List Char → Option (List Char × List Char)
  | [], _ => none
  | pat :: pats, s =>
    match matchCI pat s with
    | some r => some r
    | none => matchAlts pats s

/-- The unit alternation of the pattern, in the pattern's order:
`m²|m2|amb\.?|dorm\.?|baños?|baño|coch\.?`. -/
def unitAlts : List (List Char) :=
  ["m²".toList, "m2".toList,
   "amb.".toList, "amb".toList,
   "dorm.".toList, "dorm".toList,
   "baños".toList, "baño".toList,
   "coch.".toList, "coch".toList]

/-- The qualifier alternation `tot\.?|totales|cub\.?|cubiertos|terr\.?|terreno`
in the pattern's order.  The alternatives `totales`, `cubiertos`, `terreno`
can never be reached: each is preceded by an alternative matching its own
prefix, and the rest of the pattern is empty, so the engine commits to the
earlier alternative. -/
def qualAlts : List (List Char) :=
  ["tot.".toList, "tot".toList,
   "cub.".toList, "cub".toList,
   "terr.".toList, "terr".toList]

/-- The optional qualifier group `(?:\s*(QUAL))?`: greedy whitespace then a
qualifier alternative; if no alternative matches, the whole group matches
the empty string and the captured qualifier is the empty string. -/
def matchQualOpt (s : List Char) : List Char × List Char :=
  match matchAlts qualAlts ((splitSpaces s).2) with
  | some qr => qr
  | none => ([], s)

/-- One scanned token: the substrings captured by the three groups
(numeric value, unit, qualifier; the qualifier is `[]` when the optional
group did not participate, exactly as `findall` yields the empty
string). -/
abbrev FToken : Type := List Char × List Char × List Char

/-- Attempt to match the whole pattern at the start of `s`; on success
return the captured groups and the remaining input (the suffix after the
match). -/
def tryMatch (s : List Char) : Option (FToken × List Char) :=
  if (splitDigits s).1 = [] then none
  else
    match matchAlts unitAlts ((splitSpaces ((numTail ((splitDigits s).2)).2)).2) with
    | none => none
    | some ur =>
      some (((splitDigits s).1 ++ (numTail ((splitDigits s).2)).1, ur.1,
             (matchQualOpt ur.2).1),
            (matchQualOpt ur.2).2)

/-- The `findall` loop: try to match at each position, emitting the groups
and resuming after the match, otherwise advancing one character.  Fuelled
by the input length, which suffices because every match consumes at least
one character (its numeric group is non-empty). -/
def findTokensGo : Nat → List Char → List FToken
  | 0, _ => []
  | _ + 1, [] => []
  | fuel + 1, c :: rest =>
    match tryMatch (c :: rest) with
    | some (t, r) => t :: findTokensGo fuel r
    | none => findTokensGo fuel rest

/-- All pattern matches in the input, left to right, non-overlapping:
`pattern.findall(text)`. -/
def findTokens (s : List Char) : List FToken := findTokensGo s.length s

/-! ## `Scraper.parse_features` -/

/-- `normalize_number` of the source: strip, remove grouping dots, turn a
decimal comma into a decimal point.  The result stays a string. -/
def normalize_number (raw : List Char) : List Char :=
  ((pyStrip raw).filter (fun c => c ≠ '.')).map (fun c => if c = ',' then '.' else c)

/-- `normalize_unit` of the source: strip, lower-case, drop trailing dots,
then map spelling variants to one canonical token; unknown units pass
through. -/
def normalize_unit (raw : List Char) : List Char :=
  let r := rstripDots (pyLower (pyStrip raw))
  if r = "m²".toList || r = "m2".toList then "m²".toList
  else if r = "amb".toList || r = "ambs".toList then "amb".toList
  else if r = "dorm".toList || r = "dorms".toList then "dorm".toList
  else if r = "baño".toList || r = "baños".toList then "baños".toList
  else if r = "coch".toList || r = "cocheras".toList then "coch".toList
  else r

/-- `area_kind` of the source: classify the m² qualifier; a missing (empty)
or unrecognised qualifier yields `none`. -/
def area_kind (qualifier : List Char) : Option (List Char) :=
  if qualifier = [] then none
  else if (rstripDots (pyLower (pyStrip qualifier))).take 3 = "tot".toList then
    some "square_meters_total".toList
  else if (rstripDots (pyLower (pyStrip qualifier))).take 3 = "cub".toList then
    some "square_meters_covered".toList
  else if (rstripDots (pyLower (pyStrip qualifier))).take 4 = "terr".toList then
    some "square_meters_land".toList
  else none

/-- The module-level `FEATURE_UNIT_DICT` lookup (the m² entry is never
consulted by `parse_features`, which handles m² separately, but it is part
of the dict). -/
def FEATURE_UNIT_DICT (unit : List Char) : Option (List Char) :=
  if unit = "m²".toList then some "square_meters_area".toList
  else if unit = "amb".toList then some "rooms".toList
  else if unit = "dorm".toList then some "bedrooms".toList
  else if unit = "baño".toList then some "bathrooms".toList
  else if unit = "baños".toList then some "bathrooms".toList
  else if unit = "coch".toList then some "parking".toList
  else none

/-- The base field key a scanned token is routed to: for m² the qualifier
decides (`area_kind(raw_qual) or 'square_meters_area'`), otherwise the unit
dictionary, falling back to the normalised unit itself for unknown units. -/
def baseKeyOf (rawUnit rawQual : List Char) : List Char :=
  let unit := normalize_unit rawUnit
  if unit = "m²".toList then
    match area_kind rawQual with
    | some k => k
    | none => "square_meters_area".toList
  else
    match FEATURE_UNIT_DICT unit with
    | some k => k
    | none => unit

/-- The `features_appearance` dict created afresh on each call, holding an
occurrence counter for each of the eight base field keys. -/
def initialAppearance : List (List Char × Nat) :=
  [("square_meters_area".toList, 0),
   ("square_meters_total".toList, 0),
   ("square_meters_covered".toList, 0),
   ("square_meters_land".toList, 0),
   ("rooms".toList, 0),
   ("bedrooms".toList, 0),
   ("bathrooms".toList, 0),
   ("parking".toList, 0)]

/-- Dict read (`features_appearance.get(base_key)`): the value of the first
entry with the given key, none when absent. -/
def dictGet : List (List Char × Nat) → List Char → Option Nat
  | [], _ => none
  | (k, n) :: rest, b => if k = b then some n else dictGet rest b

/-- Dict update `features_appearance[base_key] += 1` (keys are unique, so
incrementing every matching entry equals incrementing the entry). -/
def dictBump : List (List Char × Nat) → List Char → List (List Char × Nat)
  | [], _ => []
  | (k0, n0) :: rest, b =>
    if k0 = b then (k0, n0 + 1) :: dictBump rest b
    else (k0, n0) :: dictBump rest b

/-- The token loop of `parse_features`: for each scanned token, normalise
the number, route the unit/qualifier to a base key, and emit the key with
its per-call occurrence index; a base key outside the appearance dict
(impossible for tokens produced by this pattern, see
`baseKeyOf_mem_baseKeys`) would be emitted without a suffix. -/
def parseFeaturesAux : List FToken → List (List Char × Nat) → List (List Char × List Char)
  | [], _ => []
  | (rawValue, rawUnit, rawQual) :: ts, app =>
    let value := normalize_number rawValue
    let bk := baseKeyOf rawUnit rawQual
    match dictGet app bk with
    | none => (bk, value) :: parseFeaturesAux ts app
    | some idx =>
        (bk ++ '_' :: natDigits idx, value) :: parseFeaturesAux ts (dictBump app bk)

/-- `Scraper.parse_features`: scan the text and build the feature mapping.
The insertion-ordered association list models the Python dict — its keys
are proved pairwise distinct for every input. -/
def parse_features (text : List Char) : List (List Char × List Char) :=
  parseFeaturesAux (findTokens text) initialAppearance

/-- The eight base field keys of the per-call appearance dict. -/
def baseKeys : List (List Char) := initialAppearance.map Prod.fst

/-- The base field key a scanned token is routed to. -/
def tokenBase (t : FToken) : List Char := baseKeyOf t.2.1 t.2.2

/-- The default token used with `List.getD` in index statements. -/
def dfltTok : FToken := ([], [], [])

/-- Number of tokens before position `i` routed to the same base field as
the token at position `i`: the claimed left-to-right occurrence index. -/
def priorCount (ts : List FToken) (i : Nat) : Nat :=
  ((ts.take i).filter
    (fun u => decide (tokenBase u = tokenBase (ts.getD i dfltTok)))).length

/-- Claim C3: `parse_features` applied to the exact string
"771 m² tot. | 8 amb. | 4 dorm. | 3 baños | 1 coch." returns exactly the
mapping from `square_meters_total_0`, `rooms_0`, `bedrooms_0`,
`bathrooms_0`, `parking_0` to the normalised numeric strings "771", "8",
"4", "3", "1" (strings, not parsed numbers). -/
theorem c3_parse_features_example :
    parse_features "771 m² tot. | 8 amb. | 4 dorm. | 3 baños | 1 coch.".toList =
      [("square_meters_total_0".toList, "771".toList),
       ("rooms_0".toList, "8".toList),
       ("bedrooms_0".toList, "4".toList),
       ("bathrooms_0".toList, "3".toList),
       ("parking_0".toList, "1".toList)] := by decide

/-! ## Distinctness of rendered keys -/

theorem digitChar_injOn (d1 d2 : Nat) (h1 : d1 < 10) (h2 : d2 < 10)
    (h : digitChar d1 = digitChar d2) : d1 = d2 := by
  interval_cases d1 <;> interval_cases d2 <;> revert h <;> decide

theorem digitChar_isDigit (d : Nat) (h : d < 10) : (digitChar d).isDigit = true := by
  interval_cases d <;> decide

theorem isDigit_ne_underscore (c : Char) (h : c.isDigit = true) : c ≠ '_' := by
  intro hc
  subst hc
  simp [Char.isDigit] at h

theorem natDigits_isDigit (n : Nat) : ∀ c ∈ natDigits n, c.isDigit = true := by
  intro c hc
  unfold natDigits at hc
  split at hc
  · simp only [List.mem_singleton] at hc
    subst hc
    decide
  · simp only [List.mem_reverse, List.mem_map] at hc
    obtain ⟨d, hd, rfl⟩ := hc
    exact digitChar_isDigit d (Nat.digits_lt_base (by norm_num) hd)

theorem mapDigitChar_inj :
    ∀ (l1 l2 : List Nat), (∀ d ∈ l1, d < 10) → (∀ d ∈ l2, d < 10) →
      l1.map digitChar = l2.map digitChar → l1 = l2 := by
  intro l1
  induction l1 with
  | nil =>
    intro l2 _ _ h
    cases l2 with
    | nil => rfl
    | cons b l2t => simp at h
  | cons a l1t ih =>
    intro l2 h1 h2 h
    cases l2 with
    | nil => simp at h
    | cons b l2t =>
      simp only [List.map_cons, List.cons.injEq] at h
      have ha : a = b :=
        digitChar_injOn a b (h1 a (List.mem_cons_self a l1t))
          (h2 b (List.mem_cons_self b l2t)) h.1
      have ht : l1t = l2t :=
        ih l2t (fun d hd => h1 d (List.mem_cons_of_mem a hd))
          (fun d hd => h2 d (List.mem_cons_of_mem b hd)) h.2
      rw [ha, ht]

theorem natDigits_inj (m n : Nat) (h : natDigits m = natDigits n) : m = n := by
  have key : ∀ k : Nat, k ≠ 0 → natDigits k = ['0'] → False := by
    intro k hk h0
    unfold natDigits at h0
    rw [if_neg hk] at h0
    have : (Nat.digits 10 k).map digitChar = ['0'] := by
      have := congrArg List.reverse h0
      simpa using this
    have hdig : Nat.digits 10 k = [0] := by
      have h00 : ([0] : List Nat).map digitChar = ['0'] := by decide
      refine mapDigitChar_inj _ [0] ?_ ?_ (this.trans h00.symm)
      · exact fun d hd => Nat.digits_lt_base (by norm_num) hd
      · intro d hd
        simp only [List.mem_singleton] at hd
        omega
    have := Nat.ofDigits_digits 10 k
    rw [hdig] at this
    simp [Nat.ofDigits] at this
    omega
  by_cases hm : m = 0 <;> by_cases hn : n = 0
  · omega
  · exfalso
    apply key n hn
    rw [← h]
    unfold natDigits
    rw [if_pos hm]
  · exfalso
    apply key m hm
    rw [h]
    unfold natDigits
    rw [if_pos hn]
  · unfold natDigits at h
    rw [if_neg hm, if_neg hn] at h
    have hmap : (Nat.digits 10 m).map digitChar = (Nat.digits 10 n).map digitChar := by
      have := congrArg List.reverse h
      simpa using this
    have hdig : Nat.digits 10 m = Nat.digits 10 n :=
      mapDigitChar_inj _ _ (fun d hd => Nat.digits_lt_base (by norm_num) hd)
        (fun d hd => Nat.digits_lt_base (by norm_num) hd) hmap
    have := congrArg (Nat.ofDigits 10) hdig
    rwa [Nat.ofDigits_digits, Nat.ofDigits_digits] at this

theorem append_underscore_inj :
    ∀ (x1 x2 y1 y2 : List Char), (∀ c ∈ y1, c ≠ '_') → (∀ c ∈ y2, c ≠ '_') →
      x1 ++ '_' :: y1 = x2 ++ '_' :: y2 → x1 = x2 ∧ y1 = y2 := by
  intro x1
  induction x1 with
  | nil =>
    intro x2 y1 y2 hy1 hy2 h
    cases x2 with
    | nil =>
      simp only [List.nil_append, List.cons.injEq] at h
      exact ⟨rfl, h.2⟩
    | cons c x2t =>
      exfalso
      simp only [List.nil_append, List.cons_append, List.cons.injEq] at h
      have hm : '_' ∈ y1 := by
        rw [h.2]
        exact List.mem_append_right x2t (List.mem_cons_self _ _)
      exact hy1 '_' hm rfl
  | cons a x1t ih =>
    intro x2 y1 y2 hy1 hy2 h
    cases x2 with
    | nil =>
      exfalso
      simp only [List.cons_append, List.nil_append, List.cons.injEq] at h
      have hm : '_' ∈ y2 := by
        rw [← h.2]
        exact List.mem_append_right x1t (List.mem_cons_self _ _)
      exact hy2 '_' hm rfl
    | cons b x2t =>
      simp only [List.cons_append, List.cons.injEq] at h
      have := ih x2t y1 y2 hy1 hy2 h.2
      exact ⟨by rw [h.1, this.1], this.2⟩

/-- A key `base_<index>` determines both the base and the index: the index
digits contain no underscore, so the rendering is injective. -/
theorem keyRender_inj (b1 b2 : List Char) (i1 i2 : Nat)
    (h : b1 ++ '_' :: natDigits i1 = b2 ++ '_' :: natDigits i2) :
    b1 = b2 ∧ i1 = i2 := by
  have h1 : ∀ c ∈ natDigits i1, c ≠ '_' :=
    fun c hc => isDigit_ne_underscore c (natDigits_isDigit i1 c hc)
  have h2 : ∀ c ∈ natDigits i2, c ≠ '_' :=
    fun c hc => isDigit_ne_underscore c (natDigits_isDigit i2 c hc)
  have := append_underscore_inj b1 b2 (natDigits i1) (natDigits i2) h1 h2 h
  exact ⟨this.1, natDigits_inj i1 i2 this.2⟩

/-! ## Structure of the `parse_features` output -/

/-- Increment the occurrence count of one base key. -/
def bumpCnt (cnt : List Char → Nat) (b : List Char) : List Char → Nat :=
  fun x => if x = b then cnt x + 1 else cnt x

/-- The rows `parse_features` emits, described by a running count
function instead of the appearance dict. -/
def specRows : List FToken → (List Char → Nat) → List (List Char × List Char)
  | [], _ => []
  | t :: ts, cnt =>
    (tokenBase t ++ '_' :: natDigits (cnt (tokenBase t)), normalize_number t.1) ::
      specRows ts (bumpCnt cnt (tokenBase t))

/-- The key/index pairs `parse_features` emits. -/
def specPairs : List FToken → (List Char → Nat) → List (List Char × Nat)
  | [], _ => []
  | t :: ts, cnt =>
    (tokenBase t, cnt (tokenBase t)) :: specPairs ts (bumpCnt cnt (tokenBase t))

theorem dictGet_dictBump (app : List (List Char × Nat)) (k b : List Char) :
    dictGet (dictBump app k) b =
      if b = k then (dictGet app b).map (· + 1) else dictGet app b := by
  induction app with
  | nil => by_cases hb : b = k <;> simp [dictGet, dictBump, hb]
  | cons p rest ih =>
    obtain ⟨k0, n0⟩ := p
    by_cases hk : k0 = k
    · subst hk
      by_cases hb : k0 = b
      · subst hb
        simp [dictGet, dictBump, ih]
      · have hbk : ¬b = k0 := fun h => hb h.symm
        simp [dictGet, dictBump, hb, hbk, ih]
    · by_cases hb : k0 = b
      · subst hb
        simp [dictGet, dictBump, hk]
      · simp [dictGet, dictBump, hk, hb, ih]

/-- `parseFeaturesAux` emits exactly the rows described by `specRows`
whenever every token's base key is in the appearance dict and the dict
holds the counts `cnt`. -/
theorem parseFeaturesAux_eq_specRows (ts : List FToken) :
    ∀ (app : List (List Char × Nat)) (cnt : List Char → Nat),
      (∀ b ∈ baseKeys, dictGet app b = some (cnt b)) →
      (∀ t ∈ ts, tokenBase t ∈ baseKeys) →
      parseFeaturesAux ts app = specRows ts cnt := by
  induction ts with
  | nil => intro app cnt _ _; rfl
  | cons t ts ih =>
    intro app cnt happ hts
    obtain ⟨rawValue, rawUnit, rawQual⟩ := t
    have hbase : tokenBase (rawValue, rawUnit, rawQual) ∈ baseKeys :=
      hts _ (List.mem_cons_self _ _)
    have hget : dictGet app (baseKeyOf rawUnit rawQual) =
        some (cnt (baseKeyOf rawUnit rawQual)) := happ _ hbase
    simp only [parseFeaturesAux, specRows, tokenBase] at *
    simp only [hget]
    refine congrArg _ ?_
    refine ih _ _ ?_ (fun u hu => hts u (List.mem_cons_of_mem _ hu))
    intro b hb
    rw [dictGet_dictBump, happ b hb]
    unfold bumpCnt
    by_cases hbk : b = baseKeyOf rawUnit rawQual <;> simp [hbk]

theorem specRows_length (ts : List FToken) (cnt : List Char → Nat) :
    (specRows ts cnt).length = ts.length := by
  induction ts generalizing cnt with
  | nil => rfl
  | cons t ts ih => simp [specRows, ih]

theorem specRows_fst (ts : List FToken) (cnt : List Char → Nat) :
    (specRows ts cnt).map Prod.fst =
      (specPairs ts cnt).map (fun q => q.1 ++ '_' :: natDigits q.2) := by
  induction ts generalizing cnt with
  | nil => rfl
  | cons t ts ih => simp [specRows, specPairs, ih]

theorem specPairs_cnt_le (ts : List FToken) :
    ∀ (cnt : List Char → Nat) q, q ∈ specPairs ts cnt → cnt q.1 ≤ q.2 := by
  induction ts with
  | nil => intro cnt q hq; simp [specPairs] at hq
  | cons t ts ih =>
    intro cnt q hq
    simp only [specPairs, List.mem_cons] at hq
    rcases hq with hq | hq
    · subst hq; exact le_refl _
    · have := ih (bumpCnt cnt (tokenBase t)) q hq
      unfold bumpCnt at this
      by_cases hb : q.1 = tokenBase t
      · rw [hb] at this ⊢
        simp at this
        omega
      · rwa [if_neg hb] at this

theorem specPairs_nodup (ts : List FToken) :
    ∀ cnt : List Char → Nat, (specPairs ts cnt).Nodup := by
  induction ts with
  | nil => intro cnt; simp [specPairs]
  | cons t ts ih =>
    intro cnt
    simp only [specPairs, List.nodup_cons]
    refine ⟨?_, ih _⟩
    intro hmem
    have := specPairs_cnt_le ts (bumpCnt cnt (tokenBase t)) _ hmem
    simp [bumpCnt] at this

theorem specRows_keys_nodup (ts : List FToken) (cnt : List Char → Nat) :
    ((specRows ts cnt).map Prod.fst).Nodup := by
  rw [specRows_fst]
  refine List.Nodup.map ?_ (specPairs_nodup ts cnt)
  intro q1 q2 h
  have := keyRender_inj q1.1 q2.1 q1.2 q2.2 h
  exact Prod.ext this.1 this.2

theorem specRows_getD (ts : List FToken) :
    ∀ (cnt : List Char → Nat) (i : Nat), i < ts.length →
      ((specRows ts cnt).map Prod.fst).getD i [] =
        tokenBase (ts.getD i dfltTok) ++
          '_' :: natDigits (cnt (tokenBase (ts.getD i dfltTok)) + priorCount ts i) := by
  induction ts with
  | nil =>
    intro cnt i h
    simp at h
  | cons t ts ih =>
    intro cnt i h
    cases i with
    | zero =>
      simp [specRows, priorCount]
    | succ j =>
      have hj : j < ts.length := by simpa using h
      simp only [specRows, List.map_cons, List.getD_cons_succ]
      rw [ih (bumpCnt cnt (tokenBase t)) j hj]
      have harith :
          bumpCnt cnt (tokenBase t) (tokenBase (ts.getD j dfltTok)) + priorCount ts j =
            cnt (tokenBase (ts.getD j dfltTok)) + priorCount (t :: ts) (j + 1) := by
        unfold priorCount bumpCnt
        simp only [List.getD_cons_succ, List.take_succ_cons, List.filter_cons]
        by_cases htb : tokenBase t = tokenBase (ts.getD j dfltTok)
        · rw [if_pos htb.symm, if_pos (decide_eq_true htb), List.length_cons]
          omega
        · have htb2 : ¬tokenBase (ts.getD j dfltTok) = tokenBase t :=
            fun hx => htb hx.symm
          rw [if_neg htb2, if_neg (fun hd => htb (of_decide_eq_true hd))]
      rw [harith]

/-! ## What the scanner can produce -/

theorem matchCI_spec :
    ∀ (pat s m r : List Char), matchCI pat s = some (m, r) →
      pyLower m = pat ∧ s = m ++ r := by
  intro pat
  induction pat with
  | nil =>
    intro s m r h
    simp only [matchCI, Option.some.injEq, Prod.mk.injEq] at h
    obtain ⟨rfl, rfl⟩ := h
    exact ⟨rfl, rfl⟩
  | cons p ps ih =>
    intro s m r h
    cases s with
    | nil => simp [matchCI] at h
    | cons c cs =>
      simp only [matchCI] at h
      by_cases hc : lowerAscii c = p
      · rw [if_pos hc] at h
        cases hm : matchCI ps cs with
        | none => rw [hm] at h; simp at h
        | some pr =>
          obtain ⟨m1, r1⟩ := pr
          rw [hm] at h
          simp only [Option.map_some', Option.some.injEq, Prod.mk.injEq] at h
          have hspec := ih cs m1 r1 hm
          constructor
          · rw [← h.1]
            simp only [pyLower, List.map_cons] at hspec ⊢
            rw [hc, hspec.1]
          · rw [← h.1, ← h.2, List.cons_append, ← hspec.2]
      · rw [if_neg hc] at h
        simp at h

theorem matchAlts_spec :
    ∀ (pats : List (List Char)) (s m r : List Char),
      matchAlts pats s = some (m, r) → ∃ pat ∈ pats, matchCI pat s = some (m, r) := by
  intro pats
  induction pats with
  | nil => intro s m r h; simp [matchAlts] at h
  | cons pat pats ih =>
    intro s m r h
    simp only [matchAlts] at h
    cases hm : matchCI pat s with
    | some pr =>
      simp only [hm] at h
      exact ⟨pat, List.mem_cons_self _ _, hm.trans h⟩
    | none =>
      simp only [hm] at h
      obtain ⟨q, hq, hq2⟩ := ih s m r h
      exact ⟨q, List.mem_cons_of_mem _ hq, hq2⟩

theorem matchQualOpt_range (s q r : List Char) (h : matchQualOpt s = (q, r)) :
    q = [] ∨ pyLower q ∈ qualAlts := by
  unfold matchQualOpt at h
  cases hm : matchAlts qualAlts ((splitSpaces s).2) with
  | some qr =>
    obtain ⟨q1, r1⟩ := qr
    simp only [hm] at h
    obtain ⟨pat, hpat, hci⟩ := matchAlts_spec _ _ _ _ hm
    right
    have hq1 : q1 = q := congrArg Prod.fst h
    rw [← hq1, (matchCI_spec pat _ q1 r1 hci).1]
    exact hpat
  | none =>
    simp only [hm] at h
    left
    exact (congrArg Prod.fst h).symm

theorem tryMatch_groups (s v u q r : List Char)
    (h : tryMatch s = some ((v, u, q), r)) :
    pyLower u ∈ unitAlts ∧ (q = [] ∨ pyLower q ∈ qualAlts) := by
  unfold tryMatch at h
  by_cases hds : (splitDigits s).1 = []
  · rw [if_pos hds] at h
    simp at h
  · rw [if_neg hds] at h
    cases hm : matchAlts unitAlts ((splitSpaces (numTail (splitDigits s).2).2).2) with
    | none => rw [hm] at h; simp at h
    | some ur =>
      rw [hm] at h
      simp only [Option.some.injEq, Prod.mk.injEq] at h
      obtain ⟨⟨hv, hu, hq⟩, hr⟩ := h
      constructor
      · obtain ⟨pat, hpat, hci⟩ := matchAlts_spec _ _ _ _ hm
        rw [← hu, (matchCI_spec pat _ ur.1 ur.2 (by simpa using hci)).1]
        exact hpat
      · have hqr : matchQualOpt ur.2 = (q, r) := Prod.ext hq hr
        exact matchQualOpt_range ur.2 q r hqr

theorem findTokensGo_mem (fuel : Nat) :
    ∀ (s : List Char) (t : FToken), t ∈ findTokensGo fuel s →
      ∃ s0 r, tryMatch s0 = some (t, r) := by
  induction fuel with
  | zero =>
    intro s t ht
    simp [findTokensGo] at ht
  | succ fuel ih =>
    intro s t ht
    cases s with
    | nil => simp [findTokensGo] at ht
    | cons c rest =>
      simp only [findTokensGo] at ht
      cases hm : tryMatch (c :: rest) with
      | some pr =>
        obtain ⟨t0, r0⟩ := pr
        simp only [hm, List.mem_cons] at ht
        rcases ht with rfl | ht
        · exact ⟨c :: rest, r0, hm⟩
        · exact ih _ _ ht
      | none =>
        simp only [hm] at ht
        exact ih _ _ ht

theorem findTokens_mem (s : List Char) (t : FToken) (ht : t ∈ findTokens s) :
    ∃ s0 r, tryMatch s0 = some (t, r) :=
  findTokensGo_mem s.length s t ht

theorem dropWhile_eq_self_of (p : Char → Bool) (l : List Char)
    (h : ∀ c ∈ l, p c = false) : l.dropWhile p = l := by
  cases l with
  | nil => rfl
  | cons c cs => simp [List.dropWhile_cons, h c (List.mem_cons_self _ _)]

theorem pyStrip_eq_self (l : List Char) (h : ∀ c ∈ l, isPySpace c = false) :
    pyStrip l = l := by
  unfold pyStrip
  rw [dropWhile_eq_self_of _ l h]
  rw [dropWhile_eq_self_of _ l.reverse (fun c hc => h c (List.mem_reverse.mp hc))]
  exact List.reverse_reverse l

theorem lowerAscii_pySpace (c : Char) (h : isPySpace c = true) : lowerAscii c = c := by
  simp only [isPySpace, Bool.or_eq_true, decide_eq_true_eq] at h
  rcases h with ((((rfl | rfl) | rfl) | rfl) | rfl) | rfl <;> decide

theorem no_space_of_pyLower (u pat : List Char) (hl : pyLower u = pat)
    (hpat : ∀ c ∈ pat, isPySpace c = false) : ∀ c ∈ u, isPySpace c = false := by
  intro c hc
  by_contra hsp
  have hsp2 : isPySpace c = true := by
    cases hx : isPySpace c
    · exact absurd hx hsp
    · rfl
  have hmem : lowerAscii c ∈ pat := by
    rw [← hl]
    exact List.mem_map_of_mem lowerAscii hc
  have := hpat _ hmem
  rw [lowerAscii_pySpace c hsp2] at this
  rw [this] at hsp2
  exact Bool.false_ne_true hsp2

theorem area_kind_range (q : List Char) :
    area_kind q = none ∨ area_kind q = some "square_meters_total".toList ∨
      area_kind q = some "square_meters_covered".toList ∨
      area_kind q = some "square_meters_land".toList := by
  unfold area_kind
  by_cases h0 : q = []
  · rw [if_pos h0]
    exact Or.inl rfl
  · rw [if_neg h0]
    by_cases h1 : (rstripDots (pyLower (pyStrip q))).take 3 = "tot".toList
    · rw [if_pos h1]
      exact Or.inr (Or.inl rfl)
    · rw [if_neg h1]
      by_cases h2 : (rstripDots (pyLower (pyStrip q))).take 3 = "cub".toList
      · rw [if_pos h2]
        exact Or.inr (Or.inr (Or.inl rfl))
      · rw [if_neg h2]
        by_cases h3 : (rstripDots (pyLower (pyStrip q))).take 4 = "terr".toList
        · rw [if_pos h3]
          exact Or.inr (Or.inr (Or.inr rfl))
        · rw [if_neg h3]
          exact Or.inl rfl

/-- Every token the scanner yields is routed to one of the eight base
field keys of the appearance dict. -/
theorem baseKeyOf_mem_baseKeys (u q : List Char) (hu : pyLower u ∈ unitAlts) :
    baseKeyOf u q ∈ baseKeys := by
  have hpat : ∀ c ∈ pyLower u, isPySpace c = false := by
    have hall : ∀ pat ∈ unitAlts, ∀ c ∈ pat, isPySpace c = false := by decide
    exact hall _ hu
  have hnos : ∀ c ∈ u, isPySpace c = false := no_space_of_pyLower u _ rfl hpat
  have hstrip : pyStrip u = u := pyStrip_eq_self u hnos
  unfold baseKeyOf normalize_unit
  rw [hstrip]
  simp only [unitAlts, List.mem_cons, List.not_mem_nil, or_false] at hu
  rcases hu with h | h | h | h | h | h | h | h | h | h <;> rw [h] <;>
    first
      | decide
      | (rcases area_kind_range q with h4 | h4 | h4 | h4 <;> simp [h4] <;> decide)

theorem tokenBase_mem_of_findTokens (s : List Char) :
    ∀ t ∈ findTokens s, tokenBase t ∈ baseKeys := by
  intro t ht
  obtain ⟨s0, r, hm⟩ := findTokens_mem s t ht
  obtain ⟨v, u, q⟩ := t
  exact baseKeyOf_mem_baseKeys u q (tryMatch_groups s0 v u q r hm).1

/-- Claim C2: for every feature string with N recognisable tokens (pattern
matches), `parse_features` returns exactly N keys, the keys are pairwise
distinct, and the key at position i is the token's base field name
suffixed with an underscore and the decimal occurrence index, the index
being exactly the number of earlier tokens routed to the same base field
(left-to-right appearance order, starting at 0). -/
theorem c2_parse_features_structure (text : List Char) :
    (parse_features text).length = (findTokens text).length ∧
    ((parse_features text).map Prod.fst).Nodup ∧
    ∀ i : Nat, i < (findTokens text).length →
      ((parse_features text).map Prod.fst).getD i [] =
        tokenBase ((findTokens text).getD i dfltTok) ++
          '_' :: natDigits (priorCount (findTokens text) i) := by
  have hrows : parse_features text = specRows (findTokens text) (fun _ => 0) :=
    parseFeaturesAux_eq_specRows _ _ _ (by decide) (tokenBase_mem_of_findTokens text)
  refine ⟨?_, ?_, ?_⟩
  · rw [hrows, specRows_length]
  · rw [hrows]
    exact specRows_keys_nodup _ _
  · intro i hi
    rw [hrows]
    have := specRows_getD (findTokens text) (fun _ => 0) i hi
    simpa using this

/-- Witness for C2 at a concrete input with a repeated base field. -/
theorem c2_parse_features_structure_witness :
    ((parse_features "2 amb 3 amb".toList).map Prod.fst).getD 1 [] =
      tokenBase ((findTokens "2 amb 3 amb".toList).getD 1 dfltTok) ++
        '_' :: natDigits (priorCount (findTokens "2 amb 3 amb".toList) 1) :=
  (c2_parse_features_structure _).2.2 1 (by decide)

/-! ## `zonaprop_excel_export.py`: number cleaning

`_clean_number` takes any value (possibly `None`), stringifies and strips
it, searches the first `\d+(?:[\.,]\d+)*` token, removes grouping dots,
turns a comma into a decimal point and parses a float.  Python `float` is
idealised as `ℚ`; the numbers involved are short decimal literals and no
claim depends on binary rounding. -/

/-- Match the numeric token at the start of the input (the token regex has
nothing after the number, so the greedy parse is the match). -/
def numTokenAt (s : List Char) : Option (List Char) :=
  if (splitDigits s).1 = [] then none
  else some ((splitDigits s).1 ++ (numTail ((splitDigits s).2)).1)

/-- First `\d+(?:[\.,]\d+)*` token in the input, scanning left to right
(re.search). -/
def searchNumToken : List Char → Option (List Char)
  | [] => none
  | c :: rest =>
    match numTokenAt (c :: rest) with
    | some m => some m
    | none => searchNumToken rest

/-- Python `float(s)` on the cleaned token: plain digits, or digits with a
single embedded decimal point; two or more points raise ValueError (which
`_clean_number` turns into `None`). -/
def ratParse (l : List Char) : Option ℚ :=
  if l.count '.' = 0 then some ((digitsToNat l : ℚ))
  else if l.count '.' = 1 then
    some ((digitsToNat (l.takeWhile (fun c => c ≠ '.')) : ℚ) +
      (digitsToNat ((l.dropWhile (fun c => c ≠ '.')).drop 1) : ℚ) /
        (10 : ℚ) ^ ((l.dropWhile (fun c => c ≠ '.')).drop 1).length)
  else none

/-- `_clean_number` (the leading underscore is dropped for Lean).  `none`
input models Python `None`. -/
def clean_number (raw : Option (List Char)) : Option ℚ :=
  match raw with
  | none => none
  | some s0 =>
    if pyStrip s0 = [] then none
    else
      match searchNumToken (pyStrip s0) with
      | none => none
      | some m =>
        ratParse ((m.filter (fun c => c ≠ '.')).map (fun c => if c = ',' then '.' else c))

/-! ## The detail-page area records and the three extractors -/

/-- The area record each extractor produces, fields defaulting to null. -/
structure AreaRecord where
  m2_total : Option ℚ
  m2_covered : Option ℚ
  m2_land : Option ℚ
deriving DecidableEq

def emptyAreas : AreaRecord := ⟨none, none, none⟩

/-- The three area fields, for table-driven code. -/
inductive AreaField where
  | total
  | covered
  | land
deriving DecidableEq

def getField (r : AreaRecord) : AreaField → Option ℚ
  | .total => r.m2_total
  | .covered => r.m2_covered
  | .land => r.m2_land

def setField (r : AreaRecord) : AreaField → Option ℚ → AreaRecord
  | .total, v => { r with m2_total := v }
  | .covered, v => { r with m2_covered := v }
  | .land, v => { r with m2_land := v }

/-- Python `x or y` on optional floats: `None` and `0.0` are falsy; the
result is the second operand whenever the first is falsy. -/
def pyOr (a b : Option ℚ) : Option ℚ :=
  match a with
  | none => b
  | some x => if x = 0 then b else some x

/-- The early-exit test `out[...] is not None and ...` of both HTML
extractors. -/
def allFilled (r : AreaRecord) : Bool :=
  r.m2_total.isSome && r.m2_covered.isSome && r.m2_land.isSome

/-- One `li.icon-feature` element: the class list of its first `i` child
(`none` when there is no `i` child; the source turns a missing class
attribute into the empty list via `or []`), and the element text. -/
structure IconItem where
  icon : Option (List (List Char))
  text : List Char

/-- The class-membership chain of `_parse_detail_areas_from_icon_features`. -/
def iconAssign (out : AreaRecord) (classes : List (List Char)) (val : ℚ) : AreaRecord :=
  if "icon-scubierta".toList ∈ classes then
    { out with m2_covered := pyOr out.m2_covered (some val) }
  else if "icon-stotal".toList ∈ classes then
    { out with m2_total := pyOr out.m2_total (some val) }
  else if "icon-sterreno".toList ∈ classes then
    { out with m2_land := pyOr out.m2_land (some val) }
  else out

def iconLoop : AreaRecord → List IconItem → AreaRecord
  | out, [] => out
  | out, it :: rest =>
    match it.icon with
    | none => iconLoop out rest
    | some classes =>
      match clean_number (some it.text) with
      | none => iconLoop out rest
      | some val =>
        if allFilled (iconAssign out classes val) then iconAssign out classes val
        else iconLoop (iconAssign out classes val) rest

/-- `_parse_detail_areas_from_icon_features`, over the selected
`li.icon-feature` items. -/
def parse_detail_areas_from_icon_features (items : List IconItem) : AreaRecord :=
  iconLoop emptyAreas items

/-- `pat == s[:len(pat)]`. -/
def listStartsWith : List Char → List Char → Bool
  | [], _ => true
  | _ :: _, [] => false
  | p :: ps, c :: cs => p = c && listStartsWith ps cs

/-- Python substring test `pat in s`. -/
def listContains : List Char → List Char → Bool
  | [], pat => pat.isEmpty
  | c :: cs, pat => listStartsWith pat (c :: cs) || listContains cs pat

/-- The ordered label table of `_parse_detail_areas_from_html`. -/
def label_map : List (List Char × AreaField) :=
  [("superficie total".toList, .total),
   ("superficie cubierta".toList, .covered),
   ("superficie del terreno".toList, .land),
   ("superficie terreno".toList, .land),
   ("terreno".toList, .land),
   ("lote".toList, .land)]

/-- Match `(\d+(?:[\.,]\d+)*)\s*(m²|m2)` at the start of the input and
return the numeric group. -/
def areaNumAt (s : List Char) : Option (List Char) :=
  if (splitDigits s).1 = [] then none
  else
    match matchAlts ["m²".toList, "m2".toList]
        (((numTail ((splitDigits s).2)).2).dropWhile isPySpace) with
    | none => none
    | some _ => some ((splitDigits s).1 ++ (numTail ((splitDigits s).2)).1)

/-- First `(\d+(?:[\.,]\d+)*)\s*(m²|m2)` match in a block, scanning left
to right (re.search with IGNORECASE), returning the numeric group. -/
def searchAreaNum : List Char → Option (List Char)
  | [] => none
  | c :: rest =>
    match areaNumAt (c :: rest) with
    | some m => some m
    | none => searchAreaNum rest

/-- The label loop body of `_parse_detail_areas_from_html` for one text
block: labels are tried in table order, a filled field is skipped, a label
hit stores the cleaned first `<number> m²` group of the block. -/
def labelStep (out : AreaRecord) (txt : List Char) : AreaRecord :=
  label_map.foldl
    (fun acc p =>
      if (getField acc p.2).isSome then acc
      else if listContains (pyLower txt) p.1 then
        match searchAreaNum txt with
        | some g1 => setField acc p.2 (clean_number (some g1))
        | none => acc
      else acc)
    out

def labelLoop : AreaRecord → List (List Char) → AreaRecord
  | out, [] => out
  | out, txt :: rest =>
    if txt = [] then labelLoop out rest
    else if allFilled (labelStep out txt) then labelStep out txt
    else labelLoop (labelStep out txt) rest

/-- `_parse_detail_areas_from_html`, over the texts of the candidate
elements (the source queries at most 2000 candidate nodes; the input list
is that selection). -/
def parse_detail_areas_from_html (blocks : List (List Char)) : AreaRecord :=
  labelLoop emptyAreas blocks

/-! ## The structured-metadata (JSON-LD) extractor -/

/-- JSON values as `json.loads` produces them (numbers idealised as ℚ). -/
inductive Json where
  | null : Json
  | bool : Bool → Json
  | num : ℚ → Json
  | str : List Char → Json
  | arr : List Json → Json
  | obj : List (List Char × Json) → Json

/-- Python dict lookup on a parsed JSON object (`json.loads` gives unique
keys, so first-entry lookup is the dict lookup). -/
def objGet : List (List Char × Json) → List Char → Option Json
  | [], _ => none
  | (k0, v) :: rest, k => if k0 = k then some v else objGet rest k

/-- Python truthiness of a JSON value. -/
def jsonTruthy : Json → Bool
  | .null => false
  | .bool b => b
  | .num q => decide (q ≠ 0)
  | .str s => !s.isEmpty
  | .arr xs => !xs.isEmpty
  | .obj fs => !fs.isEmpty

/-- Python `x or y` on optional JSON values. -/
def pyOrJson (a b : Option Json) : Option Json :=
  match a with
  | none => b
  | some j => if jsonTruthy j then some j else b

/-- Decimal rendering of the fractional part (terminates exactly for the
decimal fractions JSON numbers carry; the fuel truncates pathological
denominators, whose rendering no claim depends on). -/
def fracDigitsGo : Nat → ℚ → List Char
  | 0, _ => []
  | fuel + 1, f =>
    if f = 0 then []
    else digitChar (f * 10).floor.toNat :: fracDigitsGo fuel (f * 10 - (f * 10).floor)

/-- Python `str` of a JSON number (exact for integers and finite decimal
fractions, the values occurring in scraped JSON-LD). -/
def ratToStr (q : ℚ) : List Char :=
  let sign : List Char := if q < 0 then ['-'] else []
  let a : ℚ := |q|
  let frac : ℚ := a - a.floor
  if frac = 0 then sign ++ natDigits a.floor.toNat
  else sign ++ natDigits a.floor.toNat ++ '.' :: fracDigitsGo 40 frac

/-- Python `str` of a JSON value.  Container rendering is abstracted to a
digit-free bracket pair: `str` of a list or dict is only ever fed to
`_clean_number`, and no claim depends on digits leaking out of a container
rendering. -/
def pyStr : Json → List Char
  | .null => "None".toList
  | .bool true => "True".toList
  | .bool false => "False".toList
  | .num q => ratToStr q
  | .str s => s
  | .arr _ => [Char.ofNat 91, Char.ofNat 93]
  | .obj _ => [Char.ofNat 123, Char.ofNat 125]

/-- `_clean_number` applied to an arbitrary JSON value or `None` (the
source stringifies non-`None` input with `str`). -/
def cleanAny : Option Json → Option ℚ
  | none => none
  | some Json.null => none
  | some j => clean_number (some (pyStr j))

/-- `str(item.get("name") or "").strip().lower()`. -/
def apName (fields : List (List Char × Json)) : List Char :=
  match pyOrJson (objGet fields "name".toList) (some (.str [])) with
  | some j => pyLower (pyStrip (pyStr j))
  | none => []

/-- The `(key, target)` table of `_parse_detail_areas_from_jsonld`. -/
def jsonKeyTargets : List (List Char × AreaField) :=
  [("floorSize".toList, .covered),
   ("lotSize".toList, .land),
   ("area".toList, .total)]

/-- Assignment for one `floorSize`/`lotSize`/`area` value: a dict is read
through `value`/`@value` (Python `or`), a number/string/bool is cleaned
directly (bool is an `int` instance in Python), anything else is skipped. -/
def assignFromJsonVal (out : AreaRecord) (f : AreaField) (v : Json) : AreaRecord :=
  match v with
  | .obj fields =>
    setField out f
      (cleanAny (pyOrJson (objGet fields "value".toList) (objGet fields "@value".toList)))
  | .num q => setField out f (clean_number (some (ratToStr q)))
  | .str s => setField out f (clean_number (some s))
  | .bool b => setField out f (clean_number (some (pyStr (.bool b))))
  | _ => out

/-- One guarded assignment of the `additionalProperty` loop:
`if out[target] is None and <name condition>: out[target] = _clean_number(val)`. -/
def apAssign (out : AreaRecord) (f : AreaField) (cond : Bool) (val : Option Json) :
    AreaRecord :=
  if (getField out f).isNone && cond then setField out f (cleanAny val) else out

/-- One `additionalProperty` entry: three sequential, independently
guarded assignments keyed on substrings of the normalised name. -/
def apStep (out : AreaRecord) (item : Json) : AreaRecord :=
  match item with
  | .obj fields =>
    apAssign
      (apAssign
        (apAssign out .total
          (listContains (apName fields) "superficie".toList &&
            listContains (apName fields) "total".toList)
          (objGet fields "value".toList))
        .covered
        (listContains (apName fields) "cubierta".toList ||
          listContains (apName fields) "cubiertos".toList)
        (objGet fields "value".toList))
      .land
      (listContains (apName fields) "terreno".toList ||
        listContains (apName fields) "lote".toList)
      (objGet fields "value".toList)
  | _ => out

def apLoop : AreaRecord → List Json → AreaRecord
  | out, [] => out
  | out, it :: rest => apLoop (apStep out it) rest

/-- The per-dict body of `_parse_detail_areas_from_jsonld`: the
`floorSize`/`lotSize`/`area` loop, then the `additionalProperty` list. -/
def jsonDictStep (out : AreaRecord) (d : List (List Char × Json)) : AreaRecord :=
  let out1 :=
    jsonKeyTargets.foldl
      (fun acc p =>
        match objGet d p.1 with
        | none => acc
        | some v =>
          if (getField acc p.2).isSome then acc
          else assignFromJsonVal acc p.2 v)
      out
  match objGet d "additionalProperty".toList with
  | some (.arr items) => apLoop out1 items
  | _ => out1

mutual
/-- `_walk_json`: pre-order enumeration of every dict in the document. -/
def walkJson : Json → List (List (List Char × Json))
  | .obj fields => fields :: walkFields fields
  | .arr xs => walkArr xs
  | _ => []

def walkFields : List (List Char × Json) → List (List (List Char × Json))
  | [] => []
  | (_, v) :: rest => walkJson v ++ walkFields rest

def walkArr : List Json → List (List (List Char × Json))
  | [] => []
  | v :: rest => walkJson v ++ walkArr rest
end

def jsonWalkLoop : AreaRecord → List (List (List Char × Json)) → AreaRecord
  | out, [] => out
  | out, d :: ds => jsonWalkLoop (jsonDictStep out d) ds

/-- `_parse_detail_areas_from_jsonld` over the list of parsed JSON-LD
blocks (the walk over a Python list visits each element). -/
def parse_detail_areas_from_jsonld (blocks : List Json) : AreaRecord :=
  jsonWalkLoop emptyAreas (walkArr blocks)

/-! ## The merge of `parse_listing_detail` -/

/-- The area merge of `parse_listing_detail`: for each field, Python
`icons or labels or jsonld`. -/
def mergeAreas (icons labels jsonld : AreaRecord) : AreaRecord :=
  ⟨pyOr icons.m2_total (pyOr labels.m2_total jsonld.m2_total),
   pyOr icons.m2_covered (pyOr labels.m2_covered jsonld.m2_covered),
   pyOr icons.m2_land (pyOr labels.m2_land jsonld.m2_land)⟩

/-- The area-resolution core of `parse_listing_detail` (lines 206-215):
run the three extractors on the detail page's icon items, text blocks and
JSON-LD blocks, and merge. -/
def resolveDetailAreas (icons : List IconItem) (blocks : List (List Char))
    (jsonBlocks : List Json) : AreaRecord :=
  mergeAreas (parse_detail_areas_from_icon_features icons)
    (parse_detail_areas_from_html blocks)
    (parse_detail_areas_from_jsonld jsonBlocks)

/-! ## Sign of extracted values -/

/-- An optional value that is absent or non-negative. -/
def optNonneg (o : Option ℚ) : Prop :=
  match o with
  | none => True
  | some v => 0 ≤ v

/-- All three fields absent or non-negative. -/
def areasNonneg (r : AreaRecord) : Prop :=
  optNonneg r.m2_total ∧ optNonneg r.m2_covered ∧ optNonneg r.m2_land

theorem ratParse_nonneg (l : List Char) (v : ℚ) (h : ratParse l = some v) : 0 ≤ v := by
  unfold ratParse at h
  split_ifs at h
  · have hv : ((digitsToNat l : ℚ)) = v := by simpa using h
    rw [← hv]
    positivity
  · simp only [Option.some.injEq] at h
    rw [← h]
    have h1 : (0 : ℚ) ≤ (digitsToNat (l.takeWhile (fun c => c ≠ '.')) : ℚ) := by positivity
    have h2 : (0 : ℚ) ≤ (digitsToNat ((l.dropWhile (fun c => c ≠ '.')).drop 1) : ℚ) /
        (10 : ℚ) ^ ((l.dropWhile (fun c => c ≠ '.')).drop 1).length := by positivity
    linarith

theorem clean_number_nonneg (raw : Option (List Char)) (v : ℚ)
    (h : clean_number raw = some v) : 0 ≤ v := by
  unfold clean_number at h
  cases raw with
  | none => simp at h
  | some s0 =>
    simp only at h
    by_cases hp : pyStrip s0 = []
    · rw [if_pos hp] at h
      simp at h
    · rw [if_neg hp] at h
      cases hs : searchNumToken (pyStrip s0) with
      | none => simp [hs] at h
      | some m =>
        simp only [hs] at h
        exact ratParse_nonneg _ _ h

theorem cleanAny_nonneg (o : Option Json) (v : ℚ) (h : cleanAny o = some v) : 0 ≤ v := by
  unfold cleanAny at h
  cases o with
  | none => simp at h
  | some j => cases j <;> first | exact clean_number_nonneg _ _ h | simp at h

theorem pyOr_nonneg (a b : Option ℚ) (ha : optNonneg a) (hb : optNonneg b) :
    optNonneg (pyOr a b) := by
  cases a with
  | none => exact hb
  | some x =>
    simp only [pyOr]
    split_ifs with hx
    · exact hb
    · exact ha

theorem setField_nonneg (r : AreaRecord) (f : AreaField) (o : Option ℚ)
    (hr : areasNonneg r) (ho : optNonneg o) : areasNonneg (setField r f o) := by
  obtain ⟨h1, h2, h3⟩ := hr
  cases f <;> exact ⟨by assumption, by assumption, by assumption⟩

theorem emptyAreas_nonneg : areasNonneg emptyAreas := by
  exact ⟨trivial, trivial, trivial⟩

theorem iconAssign_nonneg (out : AreaRecord) (classes : List (List Char)) (val : ℚ)
    (hout : areasNonneg out) (hval : 0 ≤ val) : areasNonneg (iconAssign out classes val) := by
  obtain ⟨h1, h2, h3⟩ := hout
  unfold iconAssign
  split_ifs <;>
    exact ⟨by first | exact pyOr_nonneg _ _ (by assumption) hval | assumption,
           by first | exact pyOr_nonneg _ _ (by assumption) hval | assumption,
           by first | exact pyOr_nonneg _ _ (by assumption) hval | assumption⟩

theorem iconLoop_nonneg (items : List IconItem) :
    ∀ out : AreaRecord, areasNonneg out → areasNonneg (iconLoop out items) := by
  induction items with
  | nil => intro out h; exact h
  | cons it rest ih =>
    intro out h
    obtain ⟨oicon, otext⟩ := it
    cases oicon with
    | none => simp only [iconLoop]; exact ih out h
    | some classes =>
      simp only [iconLoop]
      cases hc : clean_number (some otext) with
      | none => exact ih out h
      | some val =>
        have hval : 0 ≤ val := clean_number_nonneg _ _ hc
        have h2 := iconAssign_nonneg out classes val h hval
        dsimp only
        split_ifs
        · exact h2
        · exact ih _ h2

theorem labelStep_nonneg (out : AreaRecord) (txt : List Char)
    (hout : areasNonneg out) : areasNonneg (labelStep out txt) := by
  unfold labelStep
  generalize label_map = lm
  induction lm generalizing out with
  | nil => exact hout
  | cons p rest ih =>
    simp only [List.foldl_cons]
    apply ih
    split_ifs
    · exact hout
    · cases hs : searchAreaNum txt with
      | none => simp only [hs]; exact hout
      | some g1 =>
        simp only [hs]
        refine setField_nonneg _ _ _ hout ?_
        cases hc : clean_number (some g1) with
        | none => exact trivial
        | some v => exact clean_number_nonneg _ _ hc
    · exact hout

theorem labelLoop_nonneg (blocks : List (List Char)) :
    ∀ out : AreaRecord, areasNonneg out → areasNonneg (labelLoop out blocks) := by
  induction blocks with
  | nil => intro out h; exact h
  | cons txt rest ih =>
    intro out h
    simp only [labelLoop]
    split_ifs
    · exact ih out h
    · exact labelStep_nonneg out txt h
    · exact ih _ (labelStep_nonneg out txt h)

theorem optNonneg_of_clean (o : Option ℚ) (ho : ∀ v, o = some v → 0 ≤ v) : optNonneg o := by
  cases o with
  | none => exact trivial
  | some v => exact ho v rfl

theorem assignFromJsonVal_nonneg (out : AreaRecord) (f : AreaField) (v : Json)
    (hout : areasNonneg out) : areasNonneg (assignFromJsonVal out f v) := by
  cases v <;> unfold assignFromJsonVal <;>
    first
      | exact hout
      | exact setField_nonneg _ _ _ hout
          (optNonneg_of_clean _ (fun w hw => cleanAny_nonneg _ w hw))
      | exact setField_nonneg _ _ _ hout
          (optNonneg_of_clean _ (fun w hw => clean_number_nonneg _ w hw))

theorem apAssign_nonneg (out : AreaRecord) (f : AreaField) (cond : Bool)
    (val : Option Json) (hout : areasNonneg out) : areasNonneg (apAssign out f cond val) := by
  unfold apAssign
  split_ifs
  · exact setField_nonneg _ _ _ hout
      (optNonneg_of_clean _ (fun w hw => cleanAny_nonneg _ w hw))
  · exact hout

theorem apStep_nonneg (out : AreaRecord) (item : Json) (hout : areasNonneg out) :
    areasNonneg (apStep out item) := by
  cases item <;> simp only [apStep] <;> try exact hout
  exact apAssign_nonneg _ _ _ _ (apAssign_nonneg _ _ _ _ (apAssign_nonneg _ _ _ _ hout))

theorem apLoop_nonneg (items : List Json) :
    ∀ out : AreaRecord, areasNonneg out → areasNonneg (apLoop out items) := by
  induction items with
  | nil => intro out h; exact h
  | cons it rest ih => intro out h; exact ih _ (apStep_nonneg out it h)

theorem jsonDictStep_nonneg (out : AreaRecord) (d : List (List Char × Json))
    (hout : areasNonneg out) : areasNonneg (jsonDictStep out d) := by
  unfold jsonDictStep
  have hfold : areasNonneg (jsonKeyTargets.foldl
      (fun acc p =>
        match objGet d p.1 with
        | none => acc
        | some v =>
          if (getField acc p.2).isSome then acc
          else assignFromJsonVal acc p.2 v)
      out) := by
    generalize jsonKeyTargets = ts
    induction ts generalizing out with
    | nil => exact hout
    | cons p rest ih =>
      simp only [List.foldl_cons]
      apply ih
      cases h0 : objGet d p.1 with
      | none => exact hout
      | some v =>
        split_ifs
        · exact hout
        · exact assignFromJsonVal_nonneg out p.2 v hout
  cases h1 : objGet d "additionalProperty".toList with
  | none => simp only [h1]; exact hfold
  | some j =>
    simp only [h1]
    cases j <;> first | exact apLoop_nonneg _ _ hfold | exact hfold

theorem jsonWalkLoop_nonneg (ds : List (List (List Char × Json))) :
    ∀ out : AreaRecord, areasNonneg out → areasNonneg (jsonWalkLoop out ds) := by
  induction ds with
  | nil => intro out h; exact h
  | cons d rest ih => intro out h; exact ih _ (jsonDictStep_nonneg out d h)

/-- Claim C9 (amended): every `AreaRecord` any of the three extractors
produces, and every merged record, has each field either null or a
non-negative parsed number.  The numeric token pattern is unsigned, so no
negative value can be stored; zero can be (see the counterexample), so the
claimed strict positivity fails. -/
theorem c9_area_records_nonneg (icons : List IconItem) (blocks : List (List Char))
    (jsons : List Json) :
    areasNonneg (parse_detail_areas_from_icon_features icons) ∧
    areasNonneg (parse_detail_areas_from_html blocks) ∧
    areasNonneg (parse_detail_areas_from_jsonld jsons) ∧
    areasNonneg (resolveDetailAreas icons blocks jsons) := by
  have h1 := iconLoop_nonneg icons emptyAreas emptyAreas_nonneg
  have h2 := labelLoop_nonneg blocks emptyAreas emptyAreas_nonneg
  have h3 := jsonWalkLoop_nonneg (walkArr jsons) emptyAreas emptyAreas_nonneg
  refine ⟨h1, h2, h3, ?_⟩
  obtain ⟨a1, a2, a3⟩ := h1
  obtain ⟨b1, b2, b3⟩ := h2
  obtain ⟨c1, c2, c3⟩ := h3
  exact ⟨pyOr_nonneg _ _ a1 (pyOr_nonneg _ _ b1 c1),
         pyOr_nonneg _ _ a2 (pyOr_nonneg _ _ b2 c2),
         pyOr_nonneg _ _ a3 (pyOr_nonneg _ _ b3 c3)⟩

/-- Counterexample to C9 as stated: the icon extractor stores the value 0
for an icon item whose text is "0 m²", and 0 is not strictly positive —
the stored value is neither null nor positive. -/
theorem c9_counterexample :
    (parse_detail_areas_from_icon_features
        [⟨some ["icon-scubierta".toList], "0 m²".toList⟩]).m2_covered = some 0 ∧
    decide ((0 : ℚ) < 0) = false := by
  constructor
  · decide
  · decide

/-! ## Claim C1: the merge priority -/

/-- The merge rule in the words of the spec: the first non-null value in
icon → labeled-text → structured-metadata order.  Declared only to be
compared with the code's `or`-based merge. -/
def firstNonNull (a b c : Option ℚ) : Option ℚ :=
  match a with
  | some x => some x
  | none =>
    match b with
    | some y => some y
    | none => c

/-- Python `a or b or c` agrees with first-non-null as soon as neither of
the two leading operands is the (falsy) value 0. -/
theorem pyOr_eq_firstNonNull (a b c : Option ℚ) (ha : a ≠ some 0) (hb : b ≠ some 0) :
    pyOr a (pyOr b c) = firstNonNull a b c := by
  cases a with
  | some x =>
    simp only [pyOr, firstNonNull]
    rw [if_neg (fun h0 => ha (by rw [h0]))]
  | none =>
    cases b with
    | some y =>
      simp only [pyOr, firstNonNull]
      rw [if_neg (fun h0 => hb (by rw [h0]))]
    | none => rfl

/-- Claim C1 (amended): for each area field independently, the merged
value of detail-area resolution is the first non-null extractor value in
icon → labeled-text → structured-metadata order, PROVIDED neither the icon
nor the labeled-text extractor produced the value 0 for that field: the
merge is Python `or`, which skips a 0.0 the same as a null.  (The claim's
own example holds: icon 100 beats labeled-text 200.) -/
theorem c1_merge_amended (icons : List IconItem) (blocks : List (List Char))
    (jsons : List Json) :
    ((parse_detail_areas_from_icon_features icons).m2_total ≠ some 0 →
      (parse_detail_areas_from_html blocks).m2_total ≠ some 0 →
      (resolveDetailAreas icons blocks jsons).m2_total =
        firstNonNull (parse_detail_areas_from_icon_features icons).m2_total
          (parse_detail_areas_from_html blocks).m2_total
          (parse_detail_areas_from_jsonld jsons).m2_total) ∧
    ((parse_detail_areas_from_icon_features icons).m2_covered ≠ some 0 →
      (parse_detail_areas_from_html blocks).m2_covered ≠ some 0 →
      (resolveDetailAreas icons blocks jsons).m2_covered =
        firstNonNull (parse_detail_areas_from_icon_features icons).m2_covered
          (parse_detail_areas_from_html blocks).m2_covered
          (parse_detail_areas_from_jsonld jsons).m2_covered) ∧
    ((parse_detail_areas_from_icon_features icons).m2_land ≠ some 0 →
      (parse_detail_areas_from_html blocks).m2_land ≠ some 0 →
      (resolveDetailAreas icons blocks jsons).m2_land =
        firstNonNull (parse_detail_areas_from_icon_features icons).m2_land
          (parse_detail_areas_from_html blocks).m2_land
          (parse_detail_areas_from_jsonld jsons).m2_land) :=
  ⟨fun h1 h2 => pyOr_eq_firstNonNull _ _ _ h1 h2,
   fun h1 h2 => pyOr_eq_firstNonNull _ _ _ h1 h2,
   fun h1 h2 => pyOr_eq_firstNonNull _ _ _ h1 h2⟩

/-- Witness for C1 at the claim's own example: the icon extractor reads
m2_covered = 100, the labeled-text extractor reads m2_covered = 200, and
the merged value is the icon's 100. -/
theorem c1_merge_witness :
    (resolveDetailAreas [⟨some ["icon-scubierta".toList], "100 m²".toList⟩]
        ["superficie cubierta 200 m²".toList] []).m2_covered =
      firstNonNull (some 100) (some 200) none ∧
    firstNonNull (some 100) (some 200) none = some 100 := by
  constructor
  · have h := (c1_merge_amended [⟨some ["icon-scubierta".toList], "100 m²".toList⟩]
      ["superficie cubierta 200 m²".toList] []).2.1 (by decide) (by decide)
    rw [h]
    have hicon : (parse_detail_areas_from_icon_features
        [⟨some ["icon-scubierta".toList], "100 m²".toList⟩]).m2_covered = some 100 := by
      decide
    have hlab : (parse_detail_areas_from_html
        ["superficie cubierta 200 m²".toList]).m2_covered = some 200 := by
      decide
    have hjson : (parse_detail_areas_from_jsonld ([] : List Json)).m2_covered = none := by
      decide
    rw [hicon, hlab, hjson]
  · decide

/-- Counterexample to C1 as stated: with an icon value of 0.0 (non-null)
and a labeled-text value of 200, the merged m2_covered is 200, not the
first non-null value 0. -/
theorem c1_merge_counterexample :
    (parse_detail_areas_from_icon_features
        [⟨some ["icon-scubierta".toList], "0 m²".toList⟩]).m2_covered = some 0 ∧
    (parse_detail_areas_from_html
        ["superficie cubierta 200 m²".toList]).m2_covered = some 200 ∧
    (resolveDetailAreas [⟨some ["icon-scubierta".toList], "0 m²".toList⟩]
        ["superficie cubierta 200 m²".toList] []).m2_covered = some 200 ∧
    firstNonNull
      (parse_detail_areas_from_icon_features
        [⟨some ["icon-scubierta".toList], "0 m²".toList⟩]).m2_covered
      (parse_detail_areas_from_html ["superficie cubierta 200 m²".toList]).m2_covered
      (parse_detail_areas_from_jsonld []).m2_covered = some 0 ∧
    decide
      ((resolveDetailAreas [⟨some ["icon-scubierta".toList], "0 m²".toList⟩]
          ["superficie cubierta 200 m²".toList] []).m2_covered =
        firstNonNull
          (parse_detail_areas_from_icon_features
            [⟨some ["icon-scubierta".toList], "0 m²".toList⟩]).m2_covered
          (parse_detail_areas_from_html ["superficie cubierta 200 m²".toList]).m2_covered
          (parse_detail_areas_from_jsonld []).m2_covered) = false := by
  refine ⟨by decide, by decide, by decide, by decide, by decide⟩

/-! ## Claim C4: the derived price-per-m² column

Lines 267-270 of the export: `denom = m2_covered or m2_total`, and the
division happens only when the (already `float`-converted) price is
present and the denominator is present and strictly positive. -/

def precioPorM2 (price_value_num m2_covered m2_total : Option ℚ) : Option ℚ :=
  match price_value_num, pyOr m2_covered m2_total with
  | some p, some d => if 0 < d then some (p / d) else none
  | _, _ => none

/-- The amended denominator rule, in words: m2_covered when non-null and
non-zero, otherwise m2_total.  Declared only to be compared with the
code's `or`-based choice. -/
def denomAmended (c t : Option ℚ) : Option ℚ :=
  match c with
  | some x => if x ≠ 0 then some x else t
  | none => t

/-- The amended claim's formula. -/
def precioAmended (p c t : Option ℚ) : Option ℚ :=
  match p, denomAmended c t with
  | some pv, some d => if 0 < d then some (pv / d) else none
  | _, _ => none

/-- Claim C4 (amended): `precio_por_m2` is the price divided by the
denominator, where the denominator is m2_covered when m2_covered is
non-null AND non-zero and m2_total otherwise (Python `or` lets a zero
m2_covered fall through to m2_total), computed exactly when the price is
present and the denominator is present and strictly positive, else null.
The claim's 100000/50 → 2000.0 example holds, and m2_covered = 0 yields
null when m2_total is absent. -/
theorem c4_price_per_m2_amended (p c t : Option ℚ) :
    precioPorM2 p c t = precioAmended p c t ∧
    precioPorM2 (some 100000) (some 50) none = some 2000 ∧
    precioPorM2 (some 100000) (some 0) none = none := by
  refine ⟨?_, by norm_num [precioPorM2, pyOr], by norm_num [precioPorM2, pyOr]⟩
  have hd : pyOr c t = denomAmended c t := by
    cases c with
    | none => rfl
    | some x =>
      simp only [pyOr, denomAmended]
      by_cases hx : x = 0
      · rw [if_pos hx, if_neg (by simpa using hx)]
      · rw [if_neg hx, if_pos hx]
  unfold precioPorM2 precioAmended
  rw [hd]

/-- Counterexample to C4 as stated: with price 100000, m2_covered = 0 and
m2_total = 50, the claim demands null (the denominator m2_covered is
present but not strictly positive), yet the code divides by the fallback
m2_total and produces 2000. -/
theorem c4_price_per_m2_counterexample :
    precioPorM2 (some 100000) (some 0) (some 50) = some 2000 ∧
    (precioPorM2 (some 100000) (some 0) (some 50)).isSome = true := by
  have h2 : precioPorM2 (some 100000) (some 0) (some 50) = some 2000 := by
    norm_num [precioPorM2, pyOr]
  exact ⟨h2, by rw [h2]; rfl⟩

/-! ## Claim C6: `parse_currency_value` -/

/-- Greedy match of `\d+\.?\d+` at the start of the input: the maximal
digit run, joined with a dot and a second digit run when the dot is
followed by a digit; a lone run matches only when it has at least two
digits (the pattern needs a digit on each side after backtracking). -/
def currencyNumAt (s : List Char) : Option (List Char) :=
  if (splitDigits s).1 = [] then none
  else
    match (splitDigits s).2 with
    | '.' :: r2 =>
      if (splitDigits r2).1 ≠ [] then some ((splitDigits s).1 ++ '.' :: (splitDigits r2).1)
      else if 2 ≤ (splitDigits s).1.length then some (splitDigits s).1
      else none
    | _ => if 2 ≤ (splitDigits s).1.length then some (splitDigits s).1 else none

/-- First `\d+\.?\d+` match (`re.findall(...)[0]`). -/
def findCurrencyNum : List Char → Option (List Char)
  | [] => none
  | c :: rest =>
    match currencyNumAt (c :: rest) with
    | some m => some m
    | none => findCurrencyNum rest

/-- First match of `(USD)|(ARS)|(\$)` (case-sensitive), returning the
matched alternative — the non-empty group the source then selects. -/
def findMarker : List Char → Option (List Char)
  | [] => none
  | c :: rest =>
    if listStartsWith "USD".toList (c :: rest) then some "USD".toList
    else if listStartsWith "ARS".toList (c :: rest) then some "ARS".toList
    else if c = '$' then some "$".toList
    else findMarker rest

/-- `Scraper.parse_currency_value`: on success the grouped-thousands
number as an integer and the first currency marker; any extraction
failure is caught and degrades to the raw text with a null type. -/
def parse_currency_value (text : List Char) : (List Char ⊕ Nat) × Option (List Char) :=
  match findCurrencyNum text, findMarker text with
  | some m, some mk => (Sum.inr (digitsToNat (m.filter (fun c => c ≠ '.'))), some mk)
  | _, _ => (Sum.inl text, none)

/-- Claim C6: `parse_currency_value` is total (never raises): whenever the
numeric token or the currency marker cannot be extracted it returns the
raw text with a null type, and on "U$S 150.000" it returns 150000 with
the sigil "$", the first marker the USD/ARS/sigil alternation matches. -/
theorem c6_parse_currency_value (text : List Char)
    (h : findCurrencyNum text = none ∨ findMarker text = none) :
    parse_currency_value text = (Sum.inl text, none) ∧
    parse_currency_value "U$S 150.000".toList = (Sum.inr 150000, some "$".toList) := by
  constructor
  · unfold parse_currency_value
    rcases h with h | h
    · rw [h]
    · rw [h]
      cases findCurrencyNum text <;> rfl
  · decide

/-- Witness for C6 on a price text with no numeric token. -/
theorem c6_parse_currency_value_witness :
    findCurrencyNum "precio a convenir".toList = none ∧
    parse_currency_value "precio a convenir".toList =
      (Sum.inl "precio a convenir".toList, none) :=
  ⟨by decide, (c6_parse_currency_value _ (Or.inl (by decide))).1⟩

/-! ## Claims C5 and C10: the pagination loop of `scrap_website`

`scrap_website` reads the total-count target, then loops
`while estates_quantity > estates_scraped`, fetching page `page_number`
(through `scrap_page`) and appending its cards.  The page fetch is the
external collaborator, abstracted as a function from page number to card
list.  The loop has no other exit, so it is fuelled: `none` means the loop
has not terminated within `fuel` iterations. -/

def scrapLoop (fetch : Nat → List α) (quantity : Nat) :
    Nat → Nat → List α → Option (List α × Nat)
  | 0, _, _ => none
  | fuel + 1, page, acc =>
    if acc.length < quantity then
      scrapLoop fetch quantity fuel (page + 1) (acc ++ fetch page)
    else some (acc, page)

/-- The loop of `scrap_website` from page 1 with no cards: on termination,
the accumulated cards and the next unfetched page number (pages
1 .. result-1 were fetched). -/
def scrap_website (fetch : Nat → List α) (quantity : Nat) (fuel : Nat) :
    Option (List α × Nat) :=
  scrapLoop fetch quantity fuel 1 []

/-- Claim C5: with a parsed target of 45 and pages 1-3 yielding 20 cards
each, the loop fetches exactly pages 1, 2 and 3 and stops (the returned
next-page counter is 4); the fetch function is arbitrary on every other
page, so a 4th page is never consulted; the 60 accumulated cards (the
overshoot past 45) are kept untrimmed. -/
theorem c5_pagination (fetch : Nat → List α) (fuel : Nat) (hfuel : 4 ≤ fuel)
    (h1 : (fetch 1).length = 20) (h2 : (fetch 2).length = 20)
    (h3 : (fetch 3).length = 20) :
    scrap_website fetch 45 fuel = some (fetch 1 ++ fetch 2 ++ fetch 3, 4) ∧
    (fetch 1 ++ fetch 2 ++ fetch 3).length = 60 := by
  obtain ⟨k, rfl⟩ : ∃ k, fuel = k + 1 + 1 + 1 + 1 := ⟨fuel - 4, by omega⟩
  constructor
  · unfold scrap_website
    rw [scrapLoop, if_pos (by norm_num)]
    rw [scrapLoop, if_pos (by simp [h1])]
    rw [scrapLoop, if_pos (by simp [h1, h2])]
    rw [scrapLoop, if_neg (by simp [h1, h2, h3])]
    simp
  · simp [h1, h2, h3]

/-- Witness for C5 with twenty-card pages. -/
theorem c5_pagination_witness :
    scrap_website (fun _ => List.replicate 20 (0 : Nat)) 45 4 =
      some (List.replicate 20 0 ++ List.replicate 20 0 ++ List.replicate 20 0, 4) :=
  (c5_pagination (fun _ => List.replicate 20 (0 : Nat)) 4 (le_refl 4)
    (by simp) (by simp) (by simp)).1

/-- Claim C10 (amended): the loop's sole exit condition is accumulated
count ≥ target, so when the target is positive and every page fetch
returns zero cards the loop never terminates (it exhausts any fuel); but a
single empty page does not by itself prevent termination — later pages can
still push the count past the target (see the counterexample). -/
theorem c10_no_progress_diverges (fetch : Nat → List α) (q : Nat) (hq : 0 < q)
    (hfetch : ∀ p, fetch p = []) (fuel : Nat) :
    scrap_website fetch q fuel = none := by
  have key : ∀ (f : Nat) (page : Nat), scrapLoop fetch q f page [] = none := by
    intro f
    induction f with
    | zero => intro page; rfl
    | succ f2 ih =>
      intro page
      rw [scrapLoop, if_pos (by simpa using hq), hfetch page]
      simpa using ih (page + 1)
  exact key fuel 1

/-- Witness for the amended C10: all-empty pages, positive target, fuel 7:
the loop is still running. -/
theorem c10_no_progress_diverges_witness :
    scrap_website (fun _ => ([] : List Nat)) 45 7 = none :=
  c10_no_progress_diverges _ 45 (by norm_num) (fun _ => rfl) 7

/-- A fetch schedule whose first page is empty while later pages hold 20
cards each. -/
def fetchPage1Empty (p : Nat) : List Nat :=
  if p = 1 then [] else List.replicate 20 0

/-- Counterexample to C10 as stated: page 1 yields zero cards below the
positive target 45, yet the loop terminates (pages 2-4 deliver 60 cards),
refuting "if some page fetch returns zero cards before the accumulated
count reaches the target, the pagination loop never terminates". -/
theorem c10_counterexample :
    fetchPage1Empty 1 = [] ∧ (0 : Nat) < 45 ∧
    scrap_website fetchPage1Empty 45 5 =
      some (List.replicate 20 0 ++ List.replicate 20 0 ++ List.replicate 20 0, 5) := by
  refine ⟨rfl, by norm_num, ?_⟩
  decide

/-! ## Claims C7 and C8: the export row loop

`export_search_to_excel` first rewrites every card's url into a canonical
`link` (lines 240-242), then builds one row per card, fetching the detail
page inside a per-card `try/except` (lines 247-293).  The card fields that
only pass through verbatim (location, price_type, expenses, description,
rooms/bedrooms/bathrooms/parking, title) are omitted from the model; the
fields with logic — link, the three areas, the derived price column and
the error annotation — are kept.  The card's price is modelled after its
`float` conversion (lines 262-265); no claim exercises that conversion. -/

def ZONAPROP_HOST : List Char := "https://www.zonaprop.com.ar".toList

/-- Drop everything from the first query/fragment delimiter on: the
`urlsplit`/`urlunsplit` canonicalisation for the absolute URLs produced
by the preceding host-prefixing steps. -/
def dropQueryFragment (u : List Char) : List Char :=
  u.takeWhile (fun c => !(c == '?') && !(c == '#'))

/-- `_normalize_url` on a (non-null) string.  `html.unescape` is modelled
as the identity — the attribute values this code feeds in contain no
entity references — and `urljoin` for the three shapes the source
distinguishes: scheme-relative, root-relative, and host-relative. -/
def urlStepScheme (u : List Char) : List Char :=
  if listStartsWith "//".toList u then "https:".toList ++ u else u

def urlStepSlash (u : List Char) : List Char :=
  if listStartsWith "/".toList u then ZONAPROP_HOST ++ u else u

def urlStepHttp (u : List Char) : List Char :=
  if listStartsWith "http".toList u then u else ZONAPROP_HOST ++ '/' :: u

def normalizeUrlStr (u0 : List Char) : List Char :=
  dropQueryFragment (urlStepHttp (urlStepSlash (urlStepScheme (pyStrip u0))))

/-- `_normalize_url` as invoked by the export loop on `c["url"]`:
`html.unescape(None)` raises `TypeError`, so a card whose
`data-to-posting` attribute was absent (url `None`) aborts the run. -/
def normalize_url : Option (List Char) → Except (List Char) (List Char)
  | none => .error "TypeError: argument of type NoneType is not iterable".toList
  | some s => .ok (normalizeUrlStr s)

/-- A listing card, restricted to the fields the export logic reads:
`parse_estate` always stores the `data-to-posting` attribute under
`url` (it is `None` when the attribute is absent — BeautifulSoup's
`get_attribute_list` returns `[None]` then). -/
structure Card where
  url : Option (List Char)
  link : Option (List Char) := none
  price_value_num : Option ℚ := none
  sq_total_raw : Option (List Char) := none
deriving DecidableEq

/-- The successful result of `parse_listing_detail` (title omitted). -/
structure DetailOk where
  link : List Char
  m2_total : Option ℚ
  m2_covered : Option ℚ
  m2_land : Option ℚ
deriving DecidableEq

/-- An export row, restricted to the fields with merge logic. -/
structure ExportRow where
  link : Option (List Char)
  m2_total : Option ℚ
  m2_covered : Option ℚ
  m2_land : Option ℚ
  precio_por_m2 : Option ℚ
  detail_error : Option (List Char)
deriving DecidableEq

def dfltCard : Card := { url := none }

def dfltRow : ExportRow := ⟨none, none, none, none, none, none⟩

/-- Lines 240-242: `for c in cards: if "url" in c: c["link"] =
_normalize_url(c["url"])` — every card from `parse_estate` has the `url`
key, and the first `None` url raises out of the whole export. -/
def normalizeCards : List Card → Except (List Char) (List Card)
  | [] => .ok []
  | c :: rest =>
    match normalize_url c.url with
    | .error e => .error e
    | .ok l =>
      match normalizeCards rest with
      | .error e => .error e
      | .ok rest2 => .ok ({ c with link := some l } :: rest2)

/-- Python string truthiness of an optional string. -/
def truthyStr : Option (List Char) → Bool
  | none => false
  | some s => !s.isEmpty

/-- `card.get("link") or card.get("url")`. -/
def pyOrStr (a b : Option (List Char)) : Option (List Char) :=
  if truthyStr a then a else b

/-- Lines 253-290: build the merged row for one card from the detail
fetch outcome.  On an exception the detail dict carries only the
normalised link and the error text, so every `detail.get` of an area
field yields null and `m2_total` falls back to the card's own
`square_meters_total_0` feature. -/
def buildRow (card : Card) (link : List Char)
    (fetched : Except (List Char) DetailOk) : ExportRow :=
  match fetched with
  | .ok d =>
    { link := some d.link
      m2_total := pyOr d.m2_total (clean_number card.sq_total_raw)
      m2_covered := d.m2_covered
      m2_land := d.m2_land
      precio_por_m2 :=
        precioPorM2 card.price_value_num d.m2_covered
          (pyOr d.m2_total (clean_number card.sq_total_raw))
      detail_error := none }
  | .error e =>
    { link := some (normalizeUrlStr link)
      m2_total := pyOr none (clean_number card.sq_total_raw)
      m2_covered := none
      m2_land := none
      precio_por_m2 :=
        precioPorM2 card.price_value_num none
          (pyOr none (clean_number card.sq_total_raw))
      detail_error := some e }

/-- Lines 248-293: one row per card with a truthy link; a card with no
usable link is skipped and the loop continues. -/
def rowLoop (detailFetch : List Char → Except (List Char) DetailOk) :
    List Card → List ExportRow
  | [] => []
  | c :: rest =>
    match pyOrStr c.link c.url with
    | none => rowLoop detailFetch rest
    | some s =>
      if s.isEmpty then rowLoop detailFetch rest
      else buildRow c s (detailFetch s) :: rowLoop detailFetch rest

/-- The export pipeline from parsed cards to rows (the spreadsheet
serialisation and the `max_listings` truncation, absent here, are
external / disabled-by-default concerns). -/
def exportRows (cards : List Card)
    (detailFetch : List Char → Except (List Char) DetailOk) :
    Except (List Char) (List ExportRow) :=
  match normalizeCards cards with
  | .error e => .error e
  | .ok cards2 => .ok (rowLoop detailFetch cards2)

theorem startsWith_http_head (u : List Char)
    (h : listStartsWith "http".toList u = true) : ∃ t, u = 'h' :: t := by
  cases u with
  | nil => simp [listStartsWith] at h
  | cons c cs =>
    have hred : listStartsWith "http".toList (c :: cs) =
        (decide ('h' = c) && listStartsWith "ttp".toList cs) := rfl
    rw [hred] at h
    simp only [Bool.and_eq_true, decide_eq_true_eq] at h
    exact ⟨cs, by rw [← h.1]⟩

theorem urlStepHttp_head (v : List Char) :
    ∃ t, urlStepHttp v = 'h' :: t := by
  unfold urlStepHttp
  by_cases h : listStartsWith "http".toList v = true
  · rw [if_pos h]
    exact startsWith_http_head v h
  · rw [if_neg h]
    exact ⟨"ttps://www.zonaprop.com.ar".toList ++ '/' :: v, rfl⟩

theorem normalizeUrlStr_head (u : List Char) : ∃ t, normalizeUrlStr u = 'h' :: t := by
  unfold normalizeUrlStr
  obtain ⟨t, ht⟩ := urlStepHttp_head
    (urlStepSlash (urlStepScheme (pyStrip u)))
  rw [ht]
  unfold dropQueryFragment
  rw [List.takeWhile_cons, if_pos (by decide)]
  exact ⟨_, rfl⟩

theorem normalizeUrlStr_not_empty (u : List Char) :
    (normalizeUrlStr u).isEmpty = false := by
  obtain ⟨t, ht⟩ := normalizeUrlStr_head u
  rw [ht]
  rfl

/-- The card after the url-normalisation loop. -/
def normCard (c : Card) : Card :=
  { c with link := some (normalizeUrlStr (c.url.getD [])) }

theorem normalizeCards_ok (cards : List Card) (h : ∀ c ∈ cards, c.url ≠ none) :
    normalizeCards cards = .ok (cards.map normCard) := by
  induction cards with
  | nil => rfl
  | cons c rest ih =>
    obtain ⟨u, hu⟩ : ∃ u, c.url = some u := by
      cases hcu : c.url with
      | none => exact absurd hcu (h c (List.mem_cons_self _ _))
      | some u => exact ⟨u, rfl⟩
    simp only [normalizeCards, hu, normalize_url]
    rw [ih (fun d hd => h d (List.mem_cons_of_mem _ hd))]
    simp only [List.map_cons]
    unfold normCard
    rw [hu]
    simp

theorem rowLoop_map (detailFetch : List Char → Except (List Char) DetailOk)
    (cards : List Card) :
    rowLoop detailFetch (cards.map normCard) =
      cards.map (fun c =>
        buildRow (normCard c) (normalizeUrlStr (c.url.getD []))
          (detailFetch (normalizeUrlStr (c.url.getD [])))) := by
  induction cards with
  | nil => rfl
  | cons c rest ih =>
    simp only [List.map_cons, rowLoop]
    have hlink : pyOrStr (normCard c).link (normCard c).url =
        some (normalizeUrlStr (c.url.getD [])) := by
      simp [pyOrStr, truthyStr, normCard, normalizeUrlStr_not_empty]
    rw [hlink]
    dsimp only
    rw [if_neg (by simp [normalizeUrlStr_not_empty]), ih]

theorem getD_map (l : List Card) (f : Card → ExportRow) :
    ∀ i, i < l.length → (l.map f).getD i dfltRow = f (l.getD i dfltCard) := by
  induction l with
  | nil => intro i hi; simp at hi
  | cons c rest ih =>
    intro i hi
    cases i with
    | zero => rfl
    | succ j =>
      simp only [List.map_cons, List.getD_cons_succ]
      exact ih j (by simpa using hi)

/-- Claim C7 (amended): when every card carries its url, a detail fetch
that raises still yields exactly one row per card; the failed row carries
the non-null error text and null `m2_covered`/`m2_land`, while its
`m2_total` is NOT null in general — it falls back to the card's own
`square_meters_total_0` feature value (null only when the card lacks that
feature); the remaining cards are still processed. -/
theorem c7_detail_failure_rows (cards : List Card)
    (detailFetch : List Char → Except (List Char) DetailOk)
    (hurl : ∀ c ∈ cards, c.url ≠ none) :
    ∃ rows, exportRows cards detailFetch = .ok rows ∧
      rows.length = cards.length ∧
      ∀ i, i < cards.length →
        ∀ e, detailFetch (normalizeUrlStr ((cards.getD i dfltCard).url.getD [])) =
            .error e →
          (rows.getD i dfltRow).detail_error = some e ∧
          (rows.getD i dfltRow).m2_covered = none ∧
          (rows.getD i dfltRow).m2_land = none ∧
          (rows.getD i dfltRow).m2_total =
            clean_number ((cards.getD i dfltCard).sq_total_raw) := by
  refine ⟨cards.map (fun c =>
      buildRow (normCard c) (normalizeUrlStr (c.url.getD []))
        (detailFetch (normalizeUrlStr (c.url.getD [])))), ?_, by simp, ?_⟩
  · unfold exportRows
    rw [normalizeCards_ok cards hurl]
    dsimp only
    rw [rowLoop_map detailFetch cards]
  · intro i hi e he
    rw [getD_map cards _ i hi, he]
    refine ⟨rfl, rfl, rfl, ?_⟩
    simp [buildRow, normCard, pyOr]

/-- A card as `parse_estate` builds it for a listing whose feature string
reported a total area of 771 m². -/
def cardWith771 : Card :=
  { url := some "/propiedades/fake.html".toList,
    sq_total_raw := some "771".toList }

/-- Witness for the amended C7 at a failing fetch. -/
theorem c7_detail_failure_rows_witness :
    ∃ rows, exportRows [cardWith771] (fun _ => .error "Timeout: boom".toList) =
        .ok rows ∧
      rows.length = 1 ∧
      (rows.getD 0 dfltRow).detail_error = some "Timeout: boom".toList ∧
      (rows.getD 0 dfltRow).m2_covered = none := by
  obtain ⟨rows, hok, hlen, hprop⟩ :=
    c7_detail_failure_rows [cardWith771] (fun _ => .error "Timeout: boom".toList)
      (by intro c hc; simp only [List.mem_singleton] at hc; subst hc; simp [cardWith771])
  obtain ⟨h1, h2, h3, h4⟩ := hprop 0 (by norm_num) "Timeout: boom".toList rfl
  exact ⟨rows, hok, hlen, h1, h2⟩

/-- Counterexample to C7 as stated: for a failing detail fetch on a card
whose feature string reported 771 m² total, the emitted row's `m2_total`
is 771, not null ("null area fields" fails for `m2_total`). -/
theorem c7_counterexample :
    exportRows [cardWith771] (fun _ => .error "Timeout: boom".toList) =
      .ok [{ link := some "https://www.zonaprop.com.ar/propiedades/fake.html".toList,
             m2_total := some 771,
             m2_covered := none,
             m2_land := none,
             precio_por_m2 := none,
             detail_error := some "Timeout: boom".toList }] ∧
    (Option.isSome (some (771 : ℚ))) = true := by
  exact ⟨rfl, rfl⟩

/-- A card whose `data-to-posting` attribute is absent: `parse_estate`
stores url `None`. -/
def cardNoUrl : Card := { url := none }

/-- Claim C8 (code bug): a card lacking its listing-URL attribute does not
get skipped — `_normalize_url(None)` raises `TypeError` inside the url
normalisation loop, aborting the whole export before any row (even for
the healthy second card) is produced.  The `if not link: continue` skip
that matches the claimed policy is unreachable for such cards. -/
theorem c8_missing_url_aborts :
    exportRows [cardNoUrl, cardWith771] (fun _ => .error "unused".toList) =
      .error "TypeError: argument of type NoneType is not iterable".toList := by
  rfl

end ZonaProp
